import Mathlib

/-!
Verification of the time-range cache and multi-source query federation
engine (`src/camera-manager/frigate/engine-frigate.ts` and the bundled
range algebra).

Conventions of the embedding:
* JS `Date` instants and numeric offsets are modelled as `Int` millisecond
  values; unix-second fields keep their unit and are converted with
  `fromUnixTime` (seconds → milliseconds), as in the source.
* The source field `end` is modelled as `stop` (`end` is a Lean keyword);
  the source field `where` is modelled as `whereZones`.
* JS `Set` values inside queries are modelled as insertion-ordered lists,
  and JS `Map` objects as association lists with `Map.set` semantics.
-/

/-- Model of `Range<T>` from range.ts, over millisecond instants. `stop` models `end`. -/
structure IntRange where
  start : Int
  stop : Int
deriving DecidableEq

/-- Model of `rangeIsEntirelyContained(bigger, smaller)` from range.ts. -/
def rangeIsEntirelyContained (bigger smaller : IntRange) : Bool :=
  smaller.start ≥ bigger.start && smaller.stop ≤ bigger.stop

/-- Model of `rangesOverlap(a, b)` from range.ts. -/
def rangesOverlap (a b : IntRange) : Bool :=
  (a.start ≥ b.start && a.start ≤ b.stop) ||
  (a.stop ≥ b.start && a.stop ≤ b.stop) ||
  (a.start ≤ b.start && a.stop ≥ b.stop)

/-- The ascending-by-start ordering used by `orderBy(ranges, start, 'asc')`
in `compressRanges`. -/
def leRangeStart (a b : IntRange) : Prop := a.start ≤ b.start

instance : DecidableRel leRangeStart :=
  fun a b => (inferInstance : Decidable (a.start ≤ b.start))

instance : IsTotal IntRange leRangeStart := ⟨fun a b => Int.le_total a.start b.start⟩

instance : IsTrans IntRange leRangeStart := ⟨fun _ _ _ h1 h2 => le_trans h1 h2⟩

/-- The `orderBy(ranges, (range) => range.start, 'asc')` call in
`compressRanges`, modelled as a stable insertion sort. -/
def sortRangesByStart (ranges : List IntRange) : List IntRange :=
  List.insertionSort leRangeStart ranges

/-- The accumulator walk inside `compressRanges`: `cur` is the `current`
accumulator and the list argument is the remaining (sorted) input.  The
source extends `current.end` with `if (range.end > current.end)` and pushes
`current` when the next range starts beyond `current.end` plus tolerance. -/
def mergeRanges (toleranceSeconds : Int) : IntRange → List IntRange → List IntRange
  | cur, [] => [cur]
  | cur, r :: rest =>
    if cur.stop + toleranceSeconds * 1000 ≥ r.start then
      mergeRanges toleranceSeconds
        { cur with stop := if r.stop > cur.stop then r.stop else cur.stop } rest
    else
      cur :: mergeRanges toleranceSeconds r rest

/-- Model of `compressRanges(ranges, toleranceSeconds)` from range.ts. -/
def compressRanges (ranges : List IntRange) (toleranceSeconds : Int) : List IntRange :=
  match sortRangesByStart ranges with
  | [] => []
  | r :: rest => mergeRanges toleranceSeconds r rest

/-- The set of instants covered by a list of (closed) ranges. -/
def coversPoint (ranges : List IntRange) (x : Int) : Prop :=
  ∃ r ∈ ranges, r.start ≤ x ∧ x ≤ r.stop

theorem coversPoint_perm {l1 l2 : List IntRange} (h : l1.Perm l2) (x : Int) :
    coversPoint l1 x ↔ coversPoint l2 x := by
  constructor <;> rintro ⟨r, hr, hx⟩
  · exact ⟨r, h.mem_iff.mp hr, hx⟩
  · exact ⟨r, h.mem_iff.mpr hr, hx⟩

theorem merged_cover (cur r : IntRange) (hle : cur.start ≤ r.start)
    (hov : r.start ≤ cur.stop) (x : Int) :
    (cur.start ≤ x ∧ x ≤ (if r.stop > cur.stop then r.stop else cur.stop)) ↔
      ((cur.start ≤ x ∧ x ≤ cur.stop) ∨ (r.start ≤ x ∧ x ≤ r.stop)) := by
  split <;> rename_i h
  · constructor
    · rintro ⟨h1, h2⟩
      rcases le_or_lt x cur.stop with h3 | h3
      · exact Or.inl ⟨h1, h3⟩
      · exact Or.inr ⟨le_of_lt (lt_of_le_of_lt hov h3), h2⟩
    · rintro (⟨h1, h2⟩ | ⟨h1, h2⟩)
      · exact ⟨h1, le_trans h2 (le_of_lt h)⟩
      · exact ⟨le_trans hle h1, h2⟩
  · constructor
    · rintro ⟨h1, h2⟩
      exact Or.inl ⟨h1, h2⟩
    · rintro (⟨h1, h2⟩ | ⟨h1, h2⟩)
      · exact ⟨h1, h2⟩
      · exact ⟨le_trans hle h1, le_trans h2 (not_lt.mp h)⟩

theorem mergeRanges_covers (x : Int) (rest : List IntRange) : ∀ (cur : IntRange),
    (∀ r ∈ rest, cur.start ≤ r.start) →
    rest.Sorted leRangeStart →
    (coversPoint (mergeRanges 0 cur rest) x ↔ coversPoint (cur :: rest) x) := by
  induction rest with
  | nil => intro cur _ _; rfl
  | cons r rest ih =>
    intro cur hlb hs
    simp only [mergeRanges]
    by_cases hc : cur.stop + 0 * 1000 ≥ r.start
    · rw [if_pos hc]
      have hcr : cur.start ≤ r.start := hlb r (List.mem_cons_self r rest)
      have hrs : r.start ≤ cur.stop := by omega
      have hlb' : ∀ q ∈ rest,
          ({ cur with stop := if r.stop > cur.stop then r.stop else cur.stop } :
            IntRange).start ≤ q.start := by
        intro q hq
        exact le_trans hcr (List.rel_of_sorted_cons hs q hq)
      rw [ih _ hlb' hs.of_cons]
      constructor
      · rintro ⟨q, hq, hx⟩
        rcases List.mem_cons.mp hq with rfl | hqm
        · rcases (merged_cover cur r hcr hrs x).mp hx with h | h
          · exact ⟨cur, List.mem_cons_self cur _, h⟩
          · exact ⟨r, by simp, h⟩
        · exact ⟨q, by simp [hqm], hx⟩
      · rintro ⟨q, hq, hx⟩
        rcases List.mem_cons.mp hq with rfl | hq'
        · exact ⟨_, List.mem_cons_self _ _, (merged_cover q r hcr hrs x).mpr (Or.inl hx)⟩
        · rcases List.mem_cons.mp hq' with rfl | hq''
          · exact ⟨_, List.mem_cons_self _ _, (merged_cover cur q hcr hrs x).mpr (Or.inr hx)⟩
          · exact ⟨q, by simp [hq''], hx⟩
    · rw [if_neg hc]
      have hlb' : ∀ q ∈ rest, r.start ≤ q.start :=
        fun q hq => List.rel_of_sorted_cons hs q hq
      constructor
      · rintro ⟨q, hq, hx⟩
        rcases List.mem_cons.mp hq with rfl | hqm
        · exact ⟨q, List.mem_cons_self _ _, hx⟩
        · have := (ih r hlb' hs.of_cons)
          have hq2 : coversPoint (r :: rest) x := this.mp ⟨q, hqm, hx⟩
          obtain ⟨p, hp, hpx⟩ := hq2
          exact ⟨p, List.mem_cons_of_mem _ hp, hpx⟩
      · rintro ⟨q, hq, hx⟩
        rcases List.mem_cons.mp hq with rfl | hq'
        · exact ⟨q, List.mem_cons_self _ _, hx⟩
        · have hmem : coversPoint (mergeRanges 0 r rest) x :=
            (ih r hlb' hs.of_cons).mpr ⟨q, hq', hx⟩
          obtain ⟨p, hp, hpx⟩ := hmem
          exact ⟨p, List.mem_cons_of_mem _ hp, hpx⟩

theorem mergeRanges_head (rest : List IntRange) : ∀ (cur : IntRange) (tol : Int),
    ∃ h t, mergeRanges tol cur rest = h :: t ∧ h.start = cur.start := by
  induction rest with
  | nil => intro cur tol; exact ⟨cur, [], rfl, rfl⟩
  | cons r rest ih =>
    intro cur tol
    simp only [mergeRanges]
    by_cases hc : cur.stop + tol * 1000 ≥ r.start
    · rw [if_pos hc]
      obtain ⟨h, t, heq, hst⟩ :=
        ih { cur with stop := if r.stop > cur.stop then r.stop else cur.stop } tol
      exact ⟨h, t, heq, hst⟩
    · rw [if_neg hc]
      exact ⟨cur, mergeRanges tol r rest, rfl, rfl⟩

theorem mergeRanges_chain (rest : List IntRange) : ∀ (cur : IntRange),
    (∀ r ∈ rest, cur.start ≤ r.start) →
    rest.Sorted leRangeStart →
    cur.start ≤ cur.stop →
    (∀ r ∈ rest, r.start ≤ r.stop) →
    (∀ q ∈ mergeRanges 0 cur rest, q.start ≤ q.stop) ∧
      List.Chain' (fun a b : IntRange => a.stop < b.start) (mergeRanges 0 cur rest) := by
  induction rest with
  | nil =>
    intro cur _ _ hvc _
    refine ⟨?_, List.chain'_singleton cur⟩
    intro q hq
    rcases List.mem_singleton.mp hq with rfl
    exact hvc
  | cons r rest ih =>
    intro cur hlb hs hvc hvr
    simp only [mergeRanges]
    by_cases hc : cur.stop + 0 * 1000 ≥ r.start
    · rw [if_pos hc]
      have hcr : cur.start ≤ r.start := hlb r (List.mem_cons_self r rest)
      have hlb' : ∀ q ∈ rest,
          ({ cur with stop := if r.stop > cur.stop then r.stop else cur.stop } :
            IntRange).start ≤ q.start :=
        fun q hq => le_trans hcr (List.rel_of_sorted_cons hs q hq)
      have hvc' : ({ cur with stop := if r.stop > cur.stop then r.stop else cur.stop } :
          IntRange).start ≤
          ({ cur with stop := if r.stop > cur.stop then r.stop else cur.stop } :
            IntRange).stop := by
        simp only
        split <;> omega
      exact ih _ hlb' hs.of_cons hvc' (fun q hq => hvr q (List.mem_cons_of_mem _ hq))
    · rw [if_neg hc]
      have hlb' : ∀ q ∈ rest, r.start ≤ q.start :=
        fun q hq => List.rel_of_sorted_cons hs q hq
      have hvr' : r.start ≤ r.stop := hvr r (List.mem_cons_self r rest)
      obtain ⟨hval, hch⟩ :=
        ih r hlb' hs.of_cons hvr' (fun q hq => hvr q (List.mem_cons_of_mem _ hq))
      constructor
      · intro q hq
        rcases List.mem_cons.mp hq with rfl | hqm
        · exact hvc
        · exact hval q hqm
      · obtain ⟨h, t, heq, hst⟩ := mergeRanges_head rest r 0
        rw [heq]
        rw [heq] at hch
        refine List.Chain'.cons ?_ hch
        omega

theorem chain_lt_all : ∀ (l : List IntRange) (a : IntRange),
    (∀ q ∈ l, q.start ≤ q.stop) →
    List.Chain' (fun x y : IntRange => x.stop < y.start) (a :: l) →
    ∀ b ∈ l, a.stop < b.start := by
  intro l
  induction l with
  | nil => intro a _ _ b hb; cases hb
  | cons h l ih =>
    intro a hv hc b hb
    have hah : a.stop < h.start := (List.chain'_cons.mp hc).1
    rcases List.mem_cons.mp hb with rfl | hb'
    · exact hah
    · have hrec := ih h (fun q hq => hv q (List.mem_cons_of_mem _ hq))
        (List.chain'_cons.mp hc).2 b hb'
      have hh : h.start ≤ h.stop := hv h (List.mem_cons_self h l)
      omega

theorem pairwise_of_chain : ∀ (l : List IntRange),
    (∀ q ∈ l, q.start ≤ q.stop) →
    List.Chain' (fun a b : IntRange => a.stop < b.start) l →
    l.Pairwise (fun a b : IntRange => a.stop < b.start) := by
  intro l
  induction l with
  | nil => intro _ _; exact List.Pairwise.nil
  | cons a l ih =>
    intro hv hc
    refine List.Pairwise.cons ?_ (ih (fun q hq => hv q (List.mem_cons_of_mem _ hq)) hc.tail)
    exact chain_lt_all l a (fun q hq => hv q (List.mem_cons_of_mem _ hq)) hc

theorem compressRanges_valid_chain (ranges : List IntRange)
    (hv : ∀ r ∈ ranges, r.start ≤ r.stop) :
    (∀ q ∈ compressRanges ranges 0, q.start ≤ q.stop) ∧
      List.Chain' (fun a b : IntRange => a.stop < b.start) (compressRanges ranges 0) := by
  unfold compressRanges
  cases hsort : sortRangesByStart ranges with
  | nil => exact ⟨fun q hq => absurd hq (List.not_mem_nil q), List.chain'_nil⟩
  | cons r rest =>
    have hperm : (r :: rest).Perm ranges := hsort ▸ List.perm_insertionSort leRangeStart ranges
    have hsorted : (r :: rest).Sorted leRangeStart :=
      hsort ▸ List.sorted_insertionSort leRangeStart ranges
    have hv' : ∀ q ∈ r :: rest, q.start ≤ q.stop :=
      fun q hq => hv q (hperm.mem_iff.mp hq)
    exact mergeRanges_chain rest r
      (fun q hq => List.rel_of_sorted_cons hsorted q hq)
      hsorted.of_cons
      (hv' r (List.mem_cons_self r rest))
      (fun q hq => hv' q (List.mem_cons_of_mem _ hq))

/-- C5: with tolerance 0, `compressRanges` over valid ranges returns a
sorted, pairwise non-overlapping sequence whose union of covered instants
is exactly the union of the input ranges. -/
theorem compressRanges_tolerance0_correct (ranges : List IntRange)
    (hv : ∀ r ∈ ranges, r.start ≤ r.stop) :
    ((compressRanges ranges 0).Pairwise
        (fun a b : IntRange => a.start ≤ b.start ∧ rangesOverlap a b = false)) ∧
    (∀ x : Int, coversPoint (compressRanges ranges 0) x ↔ coversPoint ranges x) := by
  obtain ⟨hvo, hch⟩ := compressRanges_valid_chain ranges hv
  constructor
  · have hp := pairwise_of_chain _ hvo hch
    refine hp.imp_of_mem ?_
    intro a b ha hb hr
    have hva := hvo a ha
    have hvb := hvo b hb
    constructor
    · omega
    · simp only [rangesOverlap, Bool.or_eq_false_iff, Bool.and_eq_false_iff,
        decide_eq_false_iff_not, not_le, ge_iff_le]
      omega
  · intro x
    unfold compressRanges
    cases hsort : sortRangesByStart ranges with
    | nil =>
      have hperm : ([] : List IntRange).Perm ranges :=
        hsort ▸ List.perm_insertionSort leRangeStart ranges
      rw [coversPoint_perm hperm.symm x]
    | cons r rest =>
      have hperm : (r :: rest).Perm ranges :=
        hsort ▸ List.perm_insertionSort leRangeStart ranges
      have hsorted : (r :: rest).Sorted leRangeStart :=
        hsort ▸ List.sorted_insertionSort leRangeStart ranges
      rw [mergeRanges_covers x rest r
        (fun q hq => List.rel_of_sorted_cons hsorted q hq) hsorted.of_cons]
      exact coversPoint_perm hperm x

/-- Witness for C5 at a concrete input. -/
theorem compressRanges_tolerance0_correct_witness :
    coversPoint (compressRanges [⟨0, 10⟩, ⟨5, 20⟩, ⟨30, 40⟩] 0) 7 ↔
      coversPoint [⟨0, 10⟩, ⟨5, 20⟩, ⟨30, 40⟩] 7 :=
  (compressRanges_tolerance0_correct [⟨0, 10⟩, ⟨5, 20⟩, ⟨30, 40⟩] (by decide)).2 7

theorem mergeRanges_of_chain : ∀ (rest : List IntRange) (cur : IntRange),
    List.Chain' (fun a b : IntRange => a.stop < b.start) (cur :: rest) →
    mergeRanges 0 cur rest = cur :: rest := by
  intro rest
  induction rest with
  | nil => intro cur _; rfl
  | cons r rest ih =>
    intro cur hc
    have h1 : ¬ (cur.stop + 0 * 1000 ≥ r.start) := by
      have := (List.chain'_cons.mp hc).1
      omega
    simp only [mergeRanges, if_neg h1]
    rw [ih r (List.chain'_cons.mp hc).2]

/-- C6: `compressRanges` with tolerance 0 is idempotent on lists of valid
ranges (the second application returns the first application's output
unchanged). -/
theorem compressRanges_idempotent (ranges : List IntRange)
    (hv : ∀ r ∈ ranges, r.start ≤ r.stop) :
    compressRanges (compressRanges ranges 0) 0 = compressRanges ranges 0 := by
  obtain ⟨hvo, hch⟩ := compressRanges_valid_chain ranges hv
  have hsorted : List.Sorted leRangeStart (compressRanges ranges 0) := by
    have hp := pairwise_of_chain _ hvo hch
    refine hp.imp_of_mem ?_
    intro a b ha _ hr
    have := hvo a ha
    unfold leRangeStart
    omega
  have hs : sortRangesByStart (compressRanges ranges 0) = compressRanges ranges 0 :=
    hsorted.insertionSort_eq
  generalize hout : compressRanges ranges 0 = out at hvo hch hs ⊢
  conv_lhs => rw [compressRanges.eq_def, hs]
  cases out with
  | nil => rfl
  | cons r rest => exact mergeRanges_of_chain rest r hch

/-- Witness for C6 at a concrete input. -/
theorem compressRanges_idempotent_witness :
    compressRanges (compressRanges [⟨0, 10⟩, ⟨5, 20⟩, ⟨30, 40⟩] 0) 0 =
      compressRanges [⟨0, 10⟩, ⟨5, 20⟩, ⟨30, 40⟩] 0 :=
  compressRanges_idempotent [⟨0, 10⟩, ⟨5, 20⟩, ⟨30, 40⟩] (by decide)

/-! ## Segments and the seek-offset computation -/

/-- Model of `RecordingSegment` (camera-manager types): unix-second bounds plus an id. -/
structure RecordingSegment where
  start_time : Int
  end_time : Int
  id : String
deriving DecidableEq

/-- Model of `fromUnixTime` from date-fns: unix seconds to a millisecond instant. -/
def fromUnixTime (seconds : Int) : Int := seconds * 1000

/-- The accumulation loop of `_getSeekTimeInSegments` (lines 891-900): walk
the segments, stop at the first one starting after the target, clamp each
counted segment to `[startTime, targetTime]` and add up the clamped spans
in milliseconds. -/
def seekMilliseconds (startTime targetTime : Int) : List RecordingSegment → Int
  | [] => 0
  | segment :: rest =>
    if fromUnixTime segment.start_time > targetTime then 0
    else
      let s := if fromUnixTime segment.start_time < startTime then startTime
               else fromUnixTime segment.start_time
      let e := if fromUnixTime segment.end_time > targetTime then targetTime
               else fromUnixTime segment.end_time
      (e - s) + seekMilliseconds startTime targetTime rest

/-- Model of `_getSeekTimeInSegments` (lines 880-902): null on an empty segment
list, otherwise the accumulated milliseconds divided by 1000. -/
def _getSeekTimeInSegments (startTime targetTime : Int)
    (segments : List RecordingSegment) : Option ℚ :=
  if segments.isEmpty then none
  else some ((seekMilliseconds startTime targetTime segments : ℚ) / 1000)

/-- The length of a segment's overlap with the window
`[startTime, targetTime]`, in milliseconds. -/
def overlapMs (startTime targetTime : Int) (segment : RecordingSegment) : Int :=
  max 0 (min (fromUnixTime segment.end_time) targetTime -
    max (fromUnixTime segment.start_time) startTime)

/-! ## Data model of the federation engine -/

/-- Model of `QueryType` from camera-manager/types.ts. -/
inductive QueryType
  | Event
  | Recording
  | RecordingSegments
  | MediaMetadata
deriving DecidableEq

/-- The cacheable query shapes (`EventQuery`, `RecordingQuery`,
`MediaMetadataQuery`): a `type` discriminant, the camera-ID set (modelled
as an insertion-ordered list) and the optional filters. `stop` models
`end` and `whereZones` models `where` (Lean keywords). -/
structure DataQuery where
  type : QueryType
  cameraIDs : List String
  start : Option Int := none
  stop : Option Int := none
  what : Option (List String) := none
  whereZones : Option (List String) := none
  tags : Option (List String) := none
  limit : Option Nat := none
  hasClip : Option Bool := none
  hasSnapshot : Option Bool := none
  favorite : Option Bool := none
deriving DecidableEq

/-- Model of `RecordingSegmentsQuery`: unlike the other queries its time bounds are
required. -/
structure SegmentsQuery where
  type : QueryType := QueryType.RecordingSegments
  cameraIDs : List String
  start : Int
  stop : Int
deriving DecidableEq

/-- A Frigate event (frigate/types.ts), restricted to the fields the
engine reads. -/
structure FrigateEvent where
  camera : String
  id : String
  has_clip : Bool
  has_snapshot : Bool
  sub_label : Option String := none
deriving DecidableEq

/-- Model of `FrigateRecording` from frigate/types.ts. -/
structure FrigateRecording where
  cameraID : String
  startTime : Int
  endTime : Int
  events : Nat
deriving DecidableEq

/-- One hour entry of the per-day recording summary. -/
structure RecordingSummaryHour where
  hour : Int
  events : Nat
deriving DecidableEq

/-- One day of the recording summary; `day` is the day's date as a
millisecond instant. -/
structure RecordingSummaryDay where
  day : Int
  hours : List RecordingSummaryHour
deriving DecidableEq

/-- One entry of the Frigate event summary used by `getMediaMetadata`. -/
structure EventSummaryEntry where
  camera : String
  label : Option String := none
  zones : List String := []
  day : Option String := none
  sub_label : Option String := none
deriving DecidableEq

/-- The metadata payload assembled by `getMediaMetadata`. -/
structure MediaMetadataPayload where
  what : Option (List String) := none
  whereZones : Option (List String) := none
  days : Option (List String) := none
  tags : Option (List String) := none
deriving DecidableEq

/-- The discriminated query-result union (tagged with engine/type in the
source; the engine tag is always Frigate here). -/
inductive QueryResults
  | event (instanceID : String) (events : List FrigateEvent) (expiry : Int) (cached : Bool)
  | recording (instanceID : String) (recordings : List FrigateRecording) (expiry : Int)
      (cached : Bool)
  | segments (instanceID : String) (segments : List RecordingSegment) (cached : Bool)
  | metadata (payload : MediaMetadataPayload) (expiry : Int) (cached : Bool)
deriving DecidableEq

/-- Modelled from the spec: the Keyed Result Cache (`RequestCache` from
src/camera-manager/cache.ts, which is not under src/). Contract per spec
section 6: `get(key) -> value | null`, `has(key) -> bool`,
`set(key, value, expiry)`, keys compared by structural equality of the
query value. The per-entry expiry instant is stored; no claim exercises
expiry lapse. -/
structure RequestCache where
  entries : List (DataQuery × QueryResults × Int)
deriving DecidableEq

def RequestCache.get (c : RequestCache) (k : DataQuery) : Option QueryResults :=
  (c.entries.find? (fun e => decide (e.1 = k))).map (fun e => e.2.1)

def RequestCache.has (c : RequestCache) (k : DataQuery) : Bool :=
  c.entries.any (fun e => decide (e.1 = k))

def RequestCache.set (c : RequestCache) (k : DataQuery) (v : QueryResults)
    (expiry : Int) : RequestCache :=
  ⟨(k, v, expiry) :: c.entries.filter (fun e => decide (e.1 ≠ k))⟩

/-- The `frigate` section of a `CameraConfig` (config/types.ts), restricted
to the fields the engine reads. -/
structure FrigateConfig where
  client_id : String
  camera_name : Option String := none
deriving DecidableEq

/-- A camera configuration. `birdseye` models the `isBirdseye` predicate of
frigate/camera.ts (not under src/), which marks the special non-queryable
birdseye camera. -/
structure CameraConfig where
  frigate : FrigateConfig
  birdseye : Bool := false
deriving DecidableEq

/-- The camera configuration store (spec section 6 collaborator). -/
structure CameraStore where
  configs : List (String × CameraConfig)
deriving DecidableEq

def CameraStore.getCameraConfig (s : CameraStore) (id : String) : Option CameraConfig :=
  (s.configs.find? (fun e => decide (e.1 = id))).map (fun e => e.2)

def CameraStore.getCameraConfigEntries (s : CameraStore) : List (String × CameraConfig) :=
  s.configs

/-- Model of `EngineOptions` (`{useCache?: boolean}`). -/
structure EngineOptions where
  useCache : Option Bool := none
deriving DecidableEq

/-- The `engineOptions?.useCache ?? true` idiom. -/
def useCacheOf (engineOptions : Option EngineOptions) : Bool :=
  (engineOptions.bind (fun e => e.useCache)).getD true

/-- Model of `_getQueryableCameraConfig` (lines 696-705). -/
def _getQueryableCameraConfig (store : CameraStore) (cameraID : String) :
    Option CameraConfig :=
  match store.getCameraConfig cameraID with
  | none => none
  | some cfg => if cfg.birdseye then none else some cfg

/-- JS `Set.prototype.add`: append if not present (insertion order kept). -/
def jsSetAdd (l : List String) (x : String) : List String :=
  if l.contains x then l else l ++ [x]

/-- JS `Map.prototype.set` on an association list: update in place or
append. -/
def jsMapSet {α β : Type} [DecidableEq α] (m : List (α × β)) (k : α) (v : β) :
    List (α × β) :=
  if m.any (fun p => decide (p.1 = k)) then
    m.map (fun p => if p.1 = k then (k, v) else p)
  else m ++ [(k, v)]

/-- Model of `_buildInstanceToCameraIDMapFromQuery` (lines 287-303): partition the
requested camera IDs by Frigate instance (`client_id`), skipping cameras
with no queryable config or a falsy client id. -/
def _buildInstanceToCameraIDMapFromQuery (store : CameraStore)
    (cameraIDs : List String) : List (String × List String) :=
  cameraIDs.foldl (fun output cameraID =>
    match _getQueryableCameraConfig store cameraID with
    | none => output
    | some cfg =>
      let clientID := cfg.frigate.client_id
      if clientID = "" then output
      else if output.any (fun p => decide (p.1 = clientID)) then
        output.map (fun p => if p.1 = clientID then (p.1, jsSetAdd p.2 cameraID) else p)
      else output ++ [(clientID, [cameraID])]) []

/-- Model of `_getFrigateCameraNamesForCameraIDs` (lines 305-317). -/
def _getFrigateCameraNamesForCameraIDs (store : CameraStore)
    (cameraIDs : List String) : List String :=
  cameraIDs.foldl (fun output cameraID =>
    match _getQueryableCameraConfig store cameraID with
    | some cfg =>
      match cfg.frigate.camera_name with
      | some name => if name = "" then output else jsSetAdd output name
      | none => output
    | none => output) []

/-! ## getEvents -/

def EVENT_REQUEST_CACHE_MAX_AGE_SECONDS : Int := 60

def RECORDING_SUMMARY_REQUEST_CACHE_MAX_AGE_SECONDS : Int := 60

def MEDIA_METADATA_REQUEST_CACHE_AGE_SECONDS : Int := 60

/-- Model of `NativeFrigateEventQuery` from frigate/requests.ts. -/
structure NativeFrigateEventQuery where
  instance_id : Option String := none
  cameras : Option (List String) := none
  labels : Option (List String) := none
  zones : Option (List String) := none
  sub_labels : Option (List String) := none
  after : Option Int := none
  before : Option Int := none
  limit : Option Nat := none
  has_clip : Option Bool := none
  has_snapshot : Option Bool := none
  favorites : Option Bool := none
deriving DecidableEq

/-- The native query built inside `getEvents` (lines 342-355). The literal
`limit:` property written after the conditional spreads wins, so the sent
limit is the caller's limit when present, else the engine-wide default.
`CAMERA_MANAGER_ENGINE_EVENT_LIMIT_DEFAULT` lives in
camera-manager/engine.ts (outside src/), so its value is taken as the
parameter `defaultEventLimit`. -/
def buildNativeEventQuery (store : CameraStore) (query : DataQuery)
    (instanceID : String) (cameraIDs : List String)
    (defaultEventLimit : Nat) : NativeFrigateEventQuery :=
  { instance_id := some instanceID
    cameras := some (_getFrigateCameraNamesForCameraIDs store cameraIDs)
    labels := query.what
    zones := query.whereZones
    sub_labels := query.tags
    before := query.stop.map (fun e => Int.fdiv e 1000)
    after := query.start.map (fun s => Int.fdiv s 1000)
    limit := some (query.limit.getD defaultEventLimit)
    has_clip := if query.hasClip = some true then some true else none
    has_snapshot := if query.hasSnapshot = some true then some true else none
    favorites := if query.favorite = some true then some true else none }

/-- What one per-instance branch of `getEvents` produces: its output-map
entries, its request-cache writes, and the native queries it sent. -/
structure EventBranchOutcome where
  output : List (DataQuery × QueryResults)
  writes : List (DataQuery × QueryResults × Int)
  issued : List NativeFrigateEventQuery
deriving DecidableEq

/-- Model of `processInstanceQuery` inside `getEvents` (lines 327-370). The cache
consultation runs synchronously before the remote call, so every branch
reads the cache state from before any branch's write. Note the source
consults the cache under `instanceQuery` but stores the fresh result, and
keys the cache-hit output entry, under the original `query`. -/
def processInstanceQuery (store : CameraStore) (cache : RequestCache)
    (query : DataQuery) (now : Int) (engineOptions : Option EngineOptions)
    (fetchEvents : NativeFrigateEventQuery → List FrigateEvent)
    (defaultEventLimit : Nat)
    (instanceID : String) (cameraIDs : List String) : EventBranchOutcome :=
  if cameraIDs.isEmpty then ⟨[], [], []⟩
  else
    let instanceQuery := { query with cameraIDs := cameraIDs }
    let cachedResult := if useCacheOf engineOptions then cache.get instanceQuery else none
    match cachedResult with
    | some r => ⟨[(query, r)], [], []⟩
    | none =>
      let nativeQuery := buildNativeEventQuery store query instanceID cameraIDs
        defaultEventLimit
      let events := fetchEvents nativeQuery
      let expiry := now + EVENT_REQUEST_CACHE_MAX_AGE_SECONDS * 1000
      let result := QueryResults.event instanceID events expiry false
      let writes :=
        if useCacheOf engineOptions then
          [(query, QueryResults.event instanceID events expiry true, expiry)]
        else []
      ⟨[(instanceQuery, result)], writes, [nativeQuery]⟩

/-- Model of `getEvents` (lines 319-383): fan out per Frigate instance, merge the
branch outputs into the output map, apply the cache writes, and return
null when the output map is empty. Also returns the native queries issued
(for stating what was sent to the backend). -/
def getEvents (store : CameraStore) (cache : RequestCache) (query : DataQuery)
    (now : Int) (engineOptions : Option EngineOptions)
    (fetchEvents : NativeFrigateEventQuery → List FrigateEvent)
    (defaultEventLimit : Nat) :
    Option (List (DataQuery × QueryResults)) × RequestCache ×
      List NativeFrigateEventQuery :=
  let instances := _buildInstanceToCameraIDMapFromQuery store query.cameraIDs
  let outcomes := instances.map (fun p =>
    processInstanceQuery store cache query now engineOptions fetchEvents
      defaultEventLimit p.1 p.2)
  let output := outcomes.foldl (fun m o =>
    o.output.foldl (fun m e => jsMapSet m e.1 e.2) m) []
  let cache' := outcomes.foldl (fun c o =>
    o.writes.foldl (fun c w => RequestCache.set c w.1 w.2.1 w.2.2) c) cache
  (if output.isEmpty then none else some output, cache',
    (outcomes.map (fun o => o.issued)).flatten)

/-! ## getRecordings -/

/-- Model of `startOfHour` from date-fns, on millisecond instants (hour boundaries
taken in a zero-offset timezone). -/
def startOfHour (t : Int) : Int := 3600000 * Int.fdiv t 3600000

/-- Model of `endOfHour` from date-fns: the last millisecond of the hour. -/
def endOfHour (t : Int) : Int := startOfHour t + 3599999

/-- The bound filter of the expansion loop in `getRecordings` (lines
423-426): `(!query.start || startHour >= query.start) &&
(!query.end || endHour <= query.end)`. -/
def hourQualifies (query : DataQuery) (startHour endHour : Int) : Bool :=
  (query.start.all (fun s => startHour ≥ s)) && (query.stop.all (fun e => endHour ≤ e))

/-- The summary-expansion loop of `getRecordings` (lines 416-435): every
day/hour cell of the summary becomes an hour-aligned recording, kept only
when its whole hour passes the bound filter. -/
def expandSummary (query : DataQuery) (cameraID : String)
    (summary : List RecordingSummaryDay) : List FrigateRecording :=
  summary.flatMap (fun dayData =>
    dayData.hours.filterMap (fun hourData =>
      let hour := dayData.day + hourData.hour * 3600000
      if hourQualifies query (startOfHour hour) (endOfHour hour) then
        some { cameraID := cameraID, startTime := startOfHour hour,
               endTime := endOfHour hour, events := hourData.events }
      else none))

/-- Descending-start ordering used by
`orderBy(recordings, startTime, 'desc')`. -/
def geRecStart (a b : FrigateRecording) : Prop := b.startTime ≤ a.startTime

instance : DecidableRel geRecStart :=
  fun a b => (inferInstance : Decidable (b.startTime ≤ a.startTime))

instance : IsTotal FrigateRecording geRecStart :=
  ⟨fun a b => Int.le_total b.startTime a.startTime⟩

instance : IsTrans FrigateRecording geRecStart := ⟨fun _ _ _ h1 h2 => le_trans h2 h1⟩

/-- The client-side limit emulation of `getRecordings` (lines 437-445):
sort descending by start time and truncate — only when a limit was
requested. -/
def applyRecordingLimit (limit : Option Nat) (recordings : List FrigateRecording) :
    List FrigateRecording :=
  match limit with
  | none => recordings
  | some l => (List.insertionSort geRecStart recordings).take l

/-- What one per-camera branch of `getRecordings` produces. -/
structure RecordingBranchOutcome where
  output : List (DataQuery × QueryResults)
  writes : List (DataQuery × QueryResults × Int)
deriving DecidableEq

/-- Model of `processQuery` inside `getRecordings` (lines 393-461). -/
def processRecordingQuery (store : CameraStore) (cache : RequestCache)
    (baseQuery : DataQuery) (now : Int) (engineOptions : Option EngineOptions)
    (fetchRecordingSummary : String → String → List RecordingSummaryDay)
    (cameraID : String) : RecordingBranchOutcome :=
  let query := { baseQuery with cameraIDs := [cameraID] }
  let cachedResult := if useCacheOf engineOptions then cache.get query else none
  match cachedResult with
  | some r => ⟨[(query, r)], []⟩
  | none =>
    match _getQueryableCameraConfig store cameraID with
    | none => ⟨[], []⟩
    | some cfg =>
      match cfg.frigate.camera_name with
      | none => ⟨[], []⟩
      | some cameraName =>
        if cameraName = "" then ⟨[], []⟩
        else
          let summary := fetchRecordingSummary cfg.frigate.client_id cameraName
          let recordings := applyRecordingLimit query.limit
            (expandSummary query cameraID summary)
          let expiry := now + RECORDING_SUMMARY_REQUEST_CACHE_MAX_AGE_SECONDS * 1000
          let result := QueryResults.recording cfg.frigate.client_id recordings expiry
            false
          let writes := if useCacheOf engineOptions then
              [(query, QueryResults.recording cfg.frigate.client_id recordings expiry
                true, expiry)]
            else []
          ⟨[(query, result)], writes⟩

/-- Model of `getRecordings` (lines 385-469): fan out per camera, merge, return
null when the output map is empty. -/
def getRecordings (store : CameraStore) (cache : RequestCache) (query : DataQuery)
    (now : Int) (engineOptions : Option EngineOptions)
    (fetchRecordingSummary : String → String → List RecordingSummaryDay) :
    Option (List (DataQuery × QueryResults)) × RequestCache :=
  let outcomes := query.cameraIDs.map (processRecordingQuery store cache query now
    engineOptions fetchRecordingSummary)
  let output := outcomes.foldl (fun m o =>
    o.output.foldl (fun m e => jsMapSet m e.1 e.2) m) []
  let cache' := outcomes.foldl (fun c o =>
    o.writes.foldl (fun c w => RequestCache.set c w.1 w.2.1 w.2.2) c) cache
  (if output.isEmpty then none else some output, cache')

/-! ## Segment cache and getRecordingSegments -/

/-- Model of `MemoryRangeSet.hasCoverage` from range.ts. -/
def memoryRangeSetHasCoverage (ranges : List IntRange) (range : IntRange) : Bool :=
  ranges.any (fun cachedRange => rangeIsEntirelyContained cachedRange range)

/-- Model of `MemoryRangeSet.add` from range.ts: push the range, then re-compress
the whole stored sequence with the default tolerance 0. -/
def memoryRangeSetAdd (ranges : List IntRange) (range : IntRange) : List IntRange :=
  compressRanges (ranges ++ [range]) 0

/-- Modelled from the spec: the per-camera entry of
`RecordingSegmentsCache` (src/camera-manager/cache.ts, not under src/):
the stored segments plus a `MemoryRangeSet` coverage record. -/
structure SegmentsCacheEntry where
  segments : List RecordingSegment
  coverage : List IntRange
deriving DecidableEq

/-- Modelled from the spec: `RecordingSegmentsCache` (spec section 4.3) —
`get(cameraID, range)` returns the cached segments when the per-camera
coverage reports the range fully covered, else null; `add` stores the
segments and records coverage; `expireMatches` removes every segment the
predicate matches without shrinking coverage; `getCameraIDs` lists the
cameras with cached data. -/
structure RecordingSegmentsCache where
  entries : List (String × SegmentsCacheEntry)
deriving DecidableEq

def RecordingSegmentsCache.get (c : RecordingSegmentsCache) (cameraID : String)
    (range : IntRange) : Option (List RecordingSegment) :=
  match (c.entries.find? (fun e => decide (e.1 = cameraID))).map (fun e => e.2) with
  | none => none
  | some entry =>
    if memoryRangeSetHasCoverage entry.coverage range then some entry.segments
    else none

def RecordingSegmentsCache.add (c : RecordingSegmentsCache) (cameraID : String)
    (range : IntRange) (segments : List RecordingSegment) : RecordingSegmentsCache :=
  if c.entries.any (fun e => decide (e.1 = cameraID)) then
    ⟨c.entries.map (fun e => if e.1 = cameraID then
        (e.1, ⟨e.2.segments ++ segments, memoryRangeSetAdd e.2.coverage range⟩)
      else e)⟩
  else ⟨c.entries ++ [(cameraID, ⟨segments, memoryRangeSetAdd [] range⟩)]⟩

def RecordingSegmentsCache.getCameraIDs (c : RecordingSegmentsCache) : List String :=
  c.entries.map (fun e => e.1)

def RecordingSegmentsCache.expireMatches (c : RecordingSegmentsCache)
    (cameraID : String) (pred : RecordingSegment → Bool) : RecordingSegmentsCache :=
  ⟨c.entries.map (fun e => if e.1 = cameraID then
      (e.1, ⟨e.2.segments.filter (fun s => !pred s), e.2.coverage⟩) else e)⟩

/-- The segments currently cached for one camera (empty when the camera
has no entry). -/
def RecordingSegmentsCache.segmentsFor (c : RecordingSegmentsCache)
    (cameraID : String) : List RecordingSegment :=
  ((c.entries.find? (fun e => decide (e.1 = cameraID))).map
    (fun e => e.2.segments)).getD []

/-- Model of `NativeFrigateRecordingSegmentsQuery` from frigate/requests.ts. -/
structure NativeFrigateRecordingSegmentsQuery where
  instance_id : String
  camera : String
  after : Int
  before : Int
deriving DecidableEq

/-- What one per-camera branch of `getRecordingSegments` produces: its
output-map entries and its segment-cache additions. -/
structure SegmentsBranchOutcome where
  output : List (SegmentsQuery × QueryResults)
  adds : List (String × IntRange × List RecordingSegment)
deriving DecidableEq

/-- Model of `processQuery` inside `getRecordingSegments` (lines 479-533). -/
def processSegmentsQuery (store : CameraStore)
    (segmentsCache : RecordingSegmentsCache) (baseQuery : SegmentsQuery)
    (engineOptions : Option EngineOptions)
    (fetchSegments : NativeFrigateRecordingSegmentsQuery → List RecordingSegment)
    (cameraID : String) : SegmentsBranchOutcome :=
  let query := { baseQuery with cameraIDs := [cameraID] }
  match _getQueryableCameraConfig store cameraID with
  | none => ⟨[], []⟩
  | some cfg =>
    match cfg.frigate.camera_name with
    | none => ⟨[], []⟩
    | some cameraName =>
      if cameraName = "" then ⟨[], []⟩
      else
        let range : IntRange := ⟨query.start, query.stop⟩
        let cachedSegments := if useCacheOf engineOptions then
            segmentsCache.get cameraID range
          else none
        match cachedSegments with
        | some segs =>
          ⟨[(query, QueryResults.segments cfg.frigate.client_id segs true)], []⟩
        | none =>
          let request : NativeFrigateRecordingSegmentsQuery :=
            ⟨cfg.frigate.client_id, cameraName, Int.fdiv query.start 1000,
              Int.fdiv query.stop 1000⟩
          let segments := fetchSegments request
          let adds := if useCacheOf engineOptions then [(cameraID, range, segments)]
            else []
          ⟨[(query, QueryResults.segments cfg.frigate.client_id segments false)], adds⟩

/-- Model of `getRecordingSegments` (lines 471-543): fan out per camera, merge,
apply the segment-cache additions, and return null when the output map is
empty. (The throttled idle-time garbage-collection trigger runs outside
this call's returned state and is modelled separately.) -/
def getRecordingSegments (store : CameraStore)
    (segmentsCache : RecordingSegmentsCache) (query : SegmentsQuery)
    (engineOptions : Option EngineOptions)
    (fetchSegments : NativeFrigateRecordingSegmentsQuery → List RecordingSegment) :
    Option (List (SegmentsQuery × QueryResults)) × RecordingSegmentsCache :=
  let outcomes := query.cameraIDs.map (processSegmentsQuery store segmentsCache query
    engineOptions fetchSegments)
  let output := outcomes.foldl (fun m o =>
    o.output.foldl (fun m e => jsMapSet m e.1 e.2) m) []
  let segmentsCache' := outcomes.foldl (fun c o =>
    o.adds.foldl (fun c a => RecordingSegmentsCache.add c a.1 a.2.1 a.2.2) c)
    segmentsCache
  (if output.isEmpty then none else some output, segmentsCache')

/-! ## getMediaSeekTime -/

/-- The slice of a `ViewMedia` object that `getMediaSeekTime` reads. -/
structure ViewMediaModel where
  cameraID : String
  startTime : Option Int := none
  endTime : Option Int := none
deriving DecidableEq

/-- Model of `getMediaSeekTime` (lines 661-694): null when the media has no bounds
or the target lies outside them; otherwise fetch the camera's segments for
the media window and hand the single per-camera result to
`_getSeekTimeInSegments`. -/
def getMediaSeekTime (store : CameraStore)
    (segmentsCache : RecordingSegmentsCache) (media : ViewMediaModel)
    (target : Int) (engineOptions : Option EngineOptions)
    (fetchSegments : NativeFrigateRecordingSegmentsQuery → List RecordingSegment) :
    Option ℚ :=
  match media.startTime, media.endTime with
  | some start, some stop =>
    if target < start || target > stop then none
    else
      let query : SegmentsQuery :=
        { cameraIDs := [media.cameraID], start := start, stop := stop }
      match (getRecordingSegments store segmentsCache query engineOptions
          fetchSegments).1 with
      | none => none
      | some results =>
        match results.head? with
        | some (_, QueryResults.segments _ segs _) =>
          _getSeekTimeInSegments start target segs
        | _ => none
  | _, _ => none

/-! ## Segment garbage collection -/

/-- Model of `getHourID` inside `_garbageCollectSegments` (lines 839-841):
`cameraID/dayOfMonth/hourOfDay`. The day-of-month and hour-of-day
extraction (`Date.getDate`, `Date.getHours`) is calendar- and
timezone-dependent and is passed in as the functions `getDate` and
`getHours` on millisecond instants. -/
def getHourID (getDate getHours : Int → Int) (cameraID : String)
    (startTime : Int) : String :=
  cameraID ++ "/" ++ toString (getDate startTime) ++ "/" ++
    toString (getHours startTime)

/-- The per-result reconciliation step of `_garbageCollectSegments` (lines
848-869): collect the good hour IDs of the authoritative recordings, then
evict every cached segment of that camera whose hour ID is not among
them. -/
def gcReconcileResult (getDate getHours : Int → Int)
    (segmentsCache : RecordingSegmentsCache)
    (entry : DataQuery × QueryResults) : RecordingSegmentsCache :=
  match entry.2 with
  | QueryResults.recording _ recordings _ _ =>
    let goodHours := recordings.map (fun recording =>
      getHourID getDate getHours recording.cameraID recording.startTime)
    match entry.1.cameraIDs.head? with
    | some cameraID =>
      segmentsCache.expireMatches cameraID (fun segment =>
        !goodHours.contains
          (getHourID getDate getHours cameraID (fromUnixTime segment.start_time)))
    | none => segmentsCache
  | _ => segmentsCache

/-- Model of `_garbageCollectSegments` (lines 826-870): query recordings for every
camera with cached segments, then reconcile each per-camera result against
the segment cache. -/
def _garbageCollectSegments (store : CameraStore) (cache : RequestCache)
    (segmentsCache : RecordingSegmentsCache) (now : Int)
    (fetchRecordingSummary : String → String → List RecordingSummaryDay)
    (getDate getHours : Int → Int) : RecordingSegmentsCache :=
  let recordingQuery : DataQuery :=
    { type := QueryType.Recording, cameraIDs := segmentsCache.getCameraIDs }
  match (getRecordings store cache recordingQuery now none fetchRecordingSummary).1 with
  | none => segmentsCache
  | some results => results.foldl (gcReconcileResult getDate getHours) segmentsCache

/-! ## Event-to-media projection -/

/-- Model of `_getCameraIDMatch` (lines 545-567). -/
def _getCameraIDMatch (store : CameraStore) (query : DataQuery)
    (instanceID : String) (cameraName : String) : Option String :=
  if query.cameraIDs.length = 1 then query.cameraIDs.head?
  else
    (store.getCameraConfigEntries.find? (fun e =>
      decide (e.2.frigate.client_id = instanceID) &&
      decide (e.2.frigate.camera_name = some cameraName))).map (fun e => e.1)

/-- The media type of an event-backed media item. -/
inductive MediaType
  | clip
  | snapshot
deriving DecidableEq

/-- JS truthiness of an optional boolean query flag (`undefined` and
`false` are both falsy). -/
def queryTruthy (b : Option Bool) : Bool := b = some true

/-- The media-type resolution rule of `generateMediaFromEvents` (lines
594-607): with no explicit request, prefer clip over snapshot among what
the event offers; an explicit snapshot/clip request is honored only when
the event offers it; otherwise no type resolves. -/
def resolveEventMediaType (query : DataQuery) (event : FrigateEvent) :
    Option MediaType :=
  if !(queryTruthy query.hasClip) && !(queryTruthy query.hasSnapshot) &&
      (event.has_clip || event.has_snapshot) then
    some (if event.has_clip then MediaType.clip else MediaType.snapshot)
  else if queryTruthy query.hasSnapshot && event.has_snapshot then
    some MediaType.snapshot
  else if queryTruthy query.hasClip && event.has_clip then
    some MediaType.clip
  else none

/-- Model of `_splitSubLabels` (lines 707-715). -/
def _splitSubLabels (input : String) : List String :=
  (input.splitOn ",").map (fun s => s.trim)

/-- An event-backed view-media item; the media factory
(`FrigateViewMediaFactory.createEventViewMedia`, outside src/) is modelled
from the spec ("result records are converted to view-level media objects")
as a total conversion to this record. -/
structure EventViewMedia where
  mediaType : MediaType
  cameraID : String
  event : FrigateEvent
  tagList : Option (List String)
deriving DecidableEq

/-- The per-event body of the projection loop in `generateMediaFromEvents`
(lines 580-618): skip the event when no camera matches, when the camera is
not queryable, or when no media type resolves. -/
def projectEvent (store : CameraStore) (query : DataQuery) (instanceID : String)
    (event : FrigateEvent) : Option EventViewMedia :=
  match _getCameraIDMatch store query instanceID event.camera with
  | none => none
  | some cameraID =>
    match _getQueryableCameraConfig store cameraID with
    | none => none
    | some _ =>
      match resolveEventMediaType query event with
      | none => none
      | some mediaType =>
        some { mediaType := mediaType, cameraID := cameraID, event := event,
               tagList := match event.sub_label with
                 | some s => if s = "" then none else some (_splitSubLabels s)
                 | none => none }

/-- Model of `generateMediaFromEvents` (lines 569-621): null for a non-event
result; otherwise project each event, silently skipping events with no
matching camera, no queryable config, or no resolvable media type. -/
def generateMediaFromEvents (store : CameraStore) (query : DataQuery)
    (results : QueryResults) : Option (List EventViewMedia) :=
  match results with
  | QueryResults.event instanceID events _ _ =>
    some (events.filterMap (projectEvent store query instanceID))
  | _ => none

/-! ## Retain and favorite -/

/-- Model of `RetainResult` from frigate/types.ts. -/
structure RetainResult where
  success : Bool
deriving DecidableEq

/-- The retain request object built by `retainEvent`
(src/unnamed/part_001). -/
structure RetainRequest where
  type : String
  instance_id : String
  event_id : String
  retain : Bool
deriving DecidableEq

/-- Model of `FrigateCardError` as thrown by `retainEvent`: the localized message
plus the diagnostic context `{request, response}`. `localize` (outside
src/) is modelled as the identity on the localization key. -/
structure FrigateCardErrorModel where
  message : String
  request : RetainRequest
  response : RetainResult
deriving DecidableEq

/-- Model of `retainEvent` (src/unnamed/part_001 lines 84-108): send the retain
request (its reply is the `response` argument), then throw a
`FrigateCardError` carrying the request and the response when the backend
reports `success: false`. -/
def retainEvent (clientID eventID : String) (retain : Bool)
    (response : RetainResult) : Except FrigateCardErrorModel Unit :=
  let retainRequest : RetainRequest :=
    ⟨"smarteyes-shop1/event/retain", clientID, eventID, retain⟩
  if !response.success then
    Except.error ⟨"error.failed_retain", retainRequest, response⟩
  else Except.ok ()

/-- The slice of a `ViewMedia` object that `favoriteMedia` touches. -/
structure FavoritableMedia where
  isFrigateEvent : Bool
  id : String
  favorite : Option Bool := none
deriving DecidableEq

/-- Model of `favoriteMedia` (lines 273-285): no-op on non-event media; otherwise
`retainEvent` then `media.setFavorite(favorite)`. A thrown retain error
propagates before `setFavorite` runs, so the media object is unchanged in
that case. Returns (the thrown error if any, the media object
afterwards). -/
def favoriteMedia (cameraConfig : CameraConfig) (media : FavoritableMedia)
    (favorite : Bool) (response : RetainResult) :
    Option FrigateCardErrorModel × FavoritableMedia :=
  if !media.isFrigateEvent then (none, media)
  else
    match retainEvent cameraConfig.frigate.client_id media.id favorite response with
    | Except.error e => (some e, media)
    | Except.ok _ => (none, { media with favorite := some favorite })

/-! ## getMediaMetadata -/

/-- The mutable accumulator sets of `getMediaMetadata` (lines 734-737),
modelled as insertion-ordered JS sets. -/
structure MetadataAcc where
  what : List String := []
  whereZones : List String := []
  days : List String := []
  tags : List String := []
deriving DecidableEq

/-- Model of `processEventSummary` inside `getMediaMetadata` (lines 741-765). -/
def processEventSummary (store : CameraStore) (acc : MetadataAcc)
    (instanceID : String) (cameraIDs : List String)
    (fetchEventSummary : String → List EventSummaryEntry) : MetadataAcc :=
  let cameraNames := _getFrigateCameraNamesForCameraIDs store cameraIDs
  (fetchEventSummary instanceID).foldl (fun acc entry =>
    if !cameraNames.contains entry.camera then acc
    else
      let acc := match entry.label with
        | some label =>
          if label = "" then acc else { acc with what := jsSetAdd acc.what label }
        | none => acc
      let acc := if entry.zones.isEmpty then acc
        else { acc with whereZones := entry.zones.foldl jsSetAdd acc.whereZones }
      let acc := match entry.day with
        | some day =>
          if day = "" then acc else { acc with days := jsSetAdd acc.days day }
        | none => acc
      match entry.sub_label with
      | some sl =>
        if sl = "" then acc
        else { acc with tags := (_splitSubLabels sl).foldl jsSetAdd acc.tags }
      | none => acc) acc

/-- Model of `processRecordings` inside `getMediaMetadata` (lines 767-791): issue a
boundless recording query for the instance's cameras and collect the day
of each resulting recording. `formatDate` (utils/basic.ts, outside src/)
is calendar-dependent and passed in. -/
def processMetadataRecordings (store : CameraStore) (cache : RequestCache)
    (acc : MetadataAcc) (cameraIDs : List String) (now : Int)
    (engineOptions : Option EngineOptions)
    (fetchRecordingSummary : String → String → List RecordingSummaryDay)
    (formatDate : Int → String) : MetadataAcc × RequestCache :=
  let q : DataQuery := { type := QueryType.Recording, cameraIDs := cameraIDs }
  match getRecordings store cache q now engineOptions fetchRecordingSummary with
  | (none, cache') => (acc, cache')
  | (some results, cache') =>
    (results.foldl (fun acc entry =>
      match entry.2 with
      | QueryResults.recording _ recordings _ _ =>
        recordings.foldl (fun acc recording =>
          { acc with days := jsSetAdd acc.days (formatDate recording.startTime) }) acc
      | _ => acc) acc, cache')

/-- The non-cache-hit path of `getMediaMetadata` (lines 734-819). The
per-instance event-summary and recording processing is modelled
sequentially (instance order, summary before recordings). -/
def getMediaMetadataFresh (store : CameraStore) (cache : RequestCache)
    (query : DataQuery) (now : Int) (engineOptions : Option EngineOptions)
    (fetchEventSummary : String → List EventSummaryEntry)
    (fetchRecordingSummary : String → String → List RecordingSummaryDay)
    (formatDate : Int → String) :
    Option (List (DataQuery × QueryResults)) × RequestCache :=
  let instances := _buildInstanceToCameraIDMapFromQuery store query.cameraIDs
  let accCache := instances.foldl (fun (p : MetadataAcc × RequestCache) inst =>
    let acc1 := processEventSummary store p.1 inst.1 inst.2 fetchEventSummary
    processMetadataRecordings store p.2 acc1 inst.2 now engineOptions
      fetchRecordingSummary formatDate)
    (({} : MetadataAcc), cache)
  let acc := accCache.1
  let payload : MediaMetadataPayload :=
    { what := if acc.what.isEmpty then none else some acc.what
      whereZones := if acc.whereZones.isEmpty then none else some acc.whereZones
      days := if acc.days.isEmpty then none else some acc.days
      tags := if acc.tags.isEmpty then none else some acc.tags }
  let expiry := now + MEDIA_METADATA_REQUEST_CACHE_AGE_SECONDS * 1000
  let result := QueryResults.metadata payload expiry false
  let cache' := if useCacheOf engineOptions then
      RequestCache.set accCache.2 query (QueryResults.metadata payload expiry true)
        expiry
    else accCache.2
  (some (jsMapSet [] query result), cache')

/-- Model of `getMediaMetadata` (lines 717-820): serve a cached entry when present,
otherwise compute afresh. Either way the returned map has exactly one
entry, keyed by the original query; this operation never returns null. -/
def getMediaMetadata (store : CameraStore) (cache : RequestCache)
    (query : DataQuery) (now : Int) (engineOptions : Option EngineOptions)
    (fetchEventSummary : String → List EventSummaryEntry)
    (fetchRecordingSummary : String → String → List RecordingSummaryDay)
    (formatDate : Int → String) :
    Option (List (DataQuery × QueryResults)) × RequestCache :=
  if useCacheOf engineOptions && cache.has query then
    match cache.get query with
    | some cachedResult => (some (jsMapSet [] query cachedResult), cache)
    | none =>
      getMediaMetadataFresh store cache query now engineOptions fetchEventSummary
        fetchRecordingSummary formatDate
  else
    getMediaMetadataFresh store cache query now engineOptions fetchEventSummary
      fetchRecordingSummary formatDate

/-! ## Claim theorems -/

/-- C10: every native event query that `getEvents` issues to the backend
carries a limit: the caller's requested limit when one is given, otherwise
the engine-wide default event limit
(`CAMERA_MANAGER_ENGINE_EVENT_LIMIT_DEFAULT`, here the parameter
`defaultEventLimit`); the property holds for every value of that
constant. -/
theorem getEvents_native_limit (store : CameraStore) (cache : RequestCache)
    (query : DataQuery) (now : Int) (engineOptions : Option EngineOptions)
    (fetchEvents : NativeFrigateEventQuery → List FrigateEvent)
    (defaultEventLimit : Nat) (nq : NativeFrigateEventQuery)
    (hnq : nq ∈ (getEvents store cache query now engineOptions fetchEvents
      defaultEventLimit).2.2) :
    nq.limit = some (query.limit.getD defaultEventLimit) := by
  simp only [getEvents, List.mem_flatten, List.mem_map] at hnq
  obtain ⟨l, ⟨o, ⟨p, hp, rfl⟩, rfl⟩, hnql⟩ := hnq
  simp only [processInstanceQuery] at hnql
  split at hnql
  · simp at hnql
  · split at hnql <;> try split at hnql
    all_goals simp at hnql
    all_goals (subst hnql; rfl)

/-- Witness for C10 at a concrete input. -/
theorem getEvents_native_limit_witness :
    (buildNativeEventQuery ⟨[("a", ⟨⟨"i1", some "front"⟩, false⟩)]⟩
        { type := QueryType.Event, cameraIDs := ["a"] } "i1" ["a"] 100).limit =
      some 100 :=
  getEvents_native_limit ⟨[("a", ⟨⟨"i1", some "front"⟩, false⟩)]⟩ ⟨[]⟩
    { type := QueryType.Event, cameraIDs := ["a"] } 0 none (fun _ => []) 100 _
    (by decide)

/-- C9: when the backend reports `success: false`, `favoriteMedia` raises a
`FrigateCardError` carrying the original retain request and the response,
leaving the media's favorite flag untouched; when it reports success, the
media's favorite flag is set to the requested value. -/
theorem favoriteMedia_retain (cameraConfig : CameraConfig)
    (media : FavoritableMedia) (favorite : Bool) (response : RetainResult)
    (hev : media.isFrigateEvent = true) :
    (response.success = false →
      favoriteMedia cameraConfig media favorite response =
        (some ⟨"error.failed_retain",
          ⟨"smarteyes-shop1/event/retain", cameraConfig.frigate.client_id, media.id,
            favorite⟩, response⟩, media)) ∧
    (response.success = true →
      favoriteMedia cameraConfig media favorite response =
        (none, { media with favorite := some favorite })) := by
  constructor <;> intro hs <;> simp [favoriteMedia, retainEvent, hev, hs]

/-- Witness for C9 at a concrete input. -/
theorem favoriteMedia_retain_witness :
    favoriteMedia ⟨⟨"i1", some "front"⟩, false⟩ ⟨true, "ev1", none⟩ true ⟨false⟩ =
      (some ⟨"error.failed_retain", ⟨"smarteyes-shop1/event/retain", "i1", "ev1", true⟩,
        ⟨false⟩⟩, ⟨true, "ev1", none⟩) :=
  (favoriteMedia_retain ⟨⟨"i1", some "front"⟩, false⟩ ⟨true, "ev1", none⟩ true ⟨false⟩
    rfl).1 rfl

/-- C1 (code bug): on an event query over two cameras on two distinct
Frigate instances, `getEvents` consults the cache under each per-instance
sub-query but stores both fresh results under the original query — the
later write clobbers the earlier one, neither sub-query key is present
afterwards, and the next identical call cannot hit the cache. The output
map itself is keyed by the sub-queries on the fresh path. -/
theorem getEvents_cache_key_mismatch :
    ((getEvents ⟨[("a", ⟨⟨"i1", some "front"⟩, false⟩),
          ("b", ⟨⟨"i2", some "back"⟩, false⟩)]⟩ ⟨[]⟩
        { type := QueryType.Event, cameraIDs := ["a", "b"] } 0 none (fun _ => [])
        100).2.1.get
      { type := QueryType.Event, cameraIDs := ["a"] } = none) ∧
    ((getEvents ⟨[("a", ⟨⟨"i1", some "front"⟩, false⟩),
          ("b", ⟨⟨"i2", some "back"⟩, false⟩)]⟩ ⟨[]⟩
        { type := QueryType.Event, cameraIDs := ["a", "b"] } 0 none (fun _ => [])
        100).2.1.get
      { type := QueryType.Event, cameraIDs := ["b"] } = none) ∧
    ((getEvents ⟨[("a", ⟨⟨"i1", some "front"⟩, false⟩),
          ("b", ⟨⟨"i2", some "back"⟩, false⟩)]⟩ ⟨[]⟩
        { type := QueryType.Event, cameraIDs := ["a", "b"] } 0 none (fun _ => [])
        100).2.1.get
      { type := QueryType.Event, cameraIDs := ["a", "b"] } =
      some (QueryResults.event "i2" [] 60000 true)) ∧
    ((getEvents ⟨[("a", ⟨⟨"i1", some "front"⟩, false⟩),
          ("b", ⟨⟨"i2", some "back"⟩, false⟩)]⟩ ⟨[]⟩
        { type := QueryType.Event, cameraIDs := ["a", "b"] } 0 none (fun _ => [])
        100).1 =
      some [({ type := QueryType.Event, cameraIDs := ["a"] },
          QueryResults.event "i1" [] 60000 false),
        ({ type := QueryType.Event, cameraIDs := ["b"] },
          QueryResults.event "i2" [] 60000 false)]) := by
  refine ⟨?_, ?_, ?_, ?_⟩ <;> decide

/-- C2 counterexample: `getMediaMetadata` on an empty camera set returns a
non-null one-entry map, not null — so "each of the four federated query
operations returns null exactly when its merged output map is empty (e.g.
for an empty camera set)" fails for `getMediaMetadata`. -/
theorem getMediaMetadata_empty_cameras_not_null :
    (getMediaMetadata ⟨[]⟩ ⟨[]⟩ { type := QueryType.MediaMetadata, cameraIDs := [] } 0
        none (fun _ => []) (fun _ _ => []) (fun _ => "")).1 =
      some [({ type := QueryType.MediaMetadata, cameraIDs := [] },
        QueryResults.metadata {} 60000 false)] := by
  decide

/-- C2 amended: `getEvents`, `getRecordings` and `getRecordingSegments`
return null exactly when the merged output map is empty (in particular on
an empty camera set) and a returned map is never empty; `getMediaMetadata`
however never returns null — it always returns a one-entry map keyed by
the original query, even for an empty camera set. -/
theorem federated_null_iff_empty (store : CameraStore) (cache : RequestCache)
    (query : DataQuery) (squery : SegmentsQuery)
    (segmentsCache : RecordingSegmentsCache) (now : Int)
    (engineOptions : Option EngineOptions)
    (fetchEvents : NativeFrigateEventQuery → List FrigateEvent)
    (defaultEventLimit : Nat)
    (fetchRecordingSummary : String → String → List RecordingSummaryDay)
    (fetchSegments : NativeFrigateRecordingSegmentsQuery → List RecordingSegment)
    (fetchEventSummary : String → List EventSummaryEntry)
    (formatDate : Int → String) :
    (∀ m, (getEvents store cache query now engineOptions fetchEvents
        defaultEventLimit).1 = some m → m ≠ []) ∧
    (∀ m, (getRecordings store cache query now engineOptions
        fetchRecordingSummary).1 = some m → m ≠ []) ∧
    (∀ m, (getRecordingSegments store segmentsCache squery engineOptions
        fetchSegments).1 = some m → m ≠ []) ∧
    (query.cameraIDs = [] → (getEvents store cache query now engineOptions fetchEvents
        defaultEventLimit).1 = none) ∧
    (query.cameraIDs = [] → (getRecordings store cache query now engineOptions
        fetchRecordingSummary).1 = none) ∧
    (squery.cameraIDs = [] → (getRecordingSegments store segmentsCache squery
        engineOptions fetchSegments).1 = none) ∧
    (∃ r, (getMediaMetadata store cache query now engineOptions fetchEventSummary
        fetchRecordingSummary formatDate).1 = some [(query, r)]) := by
  refine ⟨?_, ?_, ?_, ?_, ?_, ?_, ?_⟩
  · intro m hm hmnil
    simp only [getEvents] at hm
    split at hm
    · exact absurd hm (by simp)
    · rename_i hne
      rw [Option.some_inj] at hm
      rw [hm, hmnil] at hne
      exact hne rfl
  · intro m hm hmnil
    simp only [getRecordings] at hm
    split at hm
    · exact absurd hm (by simp)
    · rename_i hne
      rw [Option.some_inj] at hm
      rw [hm, hmnil] at hne
      exact hne rfl
  · intro m hm hmnil
    simp only [getRecordingSegments] at hm
    split at hm
    · exact absurd hm (by simp)
    · rename_i hne
      rw [Option.some_inj] at hm
      rw [hm, hmnil] at hne
      exact hne rfl
  · intro h
    simp [getEvents, _buildInstanceToCameraIDMapFromQuery, h]
  · intro h
    simp [getRecordings, h]
  · intro h
    simp [getRecordingSegments, h]
  · have hnil : ∀ (q : DataQuery) (v : QueryResults), jsMapSet [] q v = [(q, v)] :=
      fun q v => by simp [jsMapSet]
    simp only [getMediaMetadata]
    split
    · split
      · rename_i r hr
        simp only [hnil]
        exact ⟨r, rfl⟩
      · simp only [getMediaMetadataFresh, hnil]
        exact ⟨_, rfl⟩
    · simp only [getMediaMetadataFresh, hnil]
      exact ⟨_, rfl⟩

/-- Witness for the C2 amended theorem at a concrete input. -/
theorem federated_null_iff_empty_witness :
    (getEvents ⟨[]⟩ ⟨[]⟩ { type := QueryType.Event, cameraIDs := [] } 0 none
        (fun _ => []) 100).1 = none :=
  (federated_null_iff_empty ⟨[]⟩ ⟨[]⟩ { type := QueryType.Event, cameraIDs := [] }
    { cameraIDs := [], start := 0, stop := 0 } ⟨[]⟩ 0 none (fun _ => []) 100
    (fun _ _ => []) (fun _ => []) (fun _ => []) (fun _ => "")).2.2.2.1 rfl

/-- C8: event media-type resolution — with neither flag requested, an
event offering either resolves to clip when it has a clip and to snapshot
otherwise; a resolved type is always offered by the event; an explicit
snapshot (resp. clip) request resolves to that type when the event offers
it; otherwise the event resolves to nothing and is silently dropped from
the projection, leaving the other events' projection unchanged. -/
theorem generateMediaFromEvents_type_resolution (store : CameraStore)
    (query : DataQuery) (event : FrigateEvent) :
    (∀ instanceID events expiry cached,
      generateMediaFromEvents store query
          (QueryResults.event instanceID events expiry cached) =
        generateMediaFromEvents store query
          (QueryResults.event instanceID
            (events.filter (fun e => (resolveEventMediaType query e).isSome))
            expiry cached)) ∧
    ((queryTruthy query.hasClip = false ∧ queryTruthy query.hasSnapshot = false ∧
        (event.has_clip = true ∨ event.has_snapshot = true)) →
      resolveEventMediaType query event =
        some (if event.has_clip then MediaType.clip else MediaType.snapshot)) ∧
    (resolveEventMediaType query event = some MediaType.clip →
      event.has_clip = true) ∧
    (resolveEventMediaType query event = some MediaType.snapshot →
      event.has_snapshot = true) ∧
    ((queryTruthy query.hasSnapshot = true ∧ event.has_snapshot = true) →
      resolveEventMediaType query event = some MediaType.snapshot) ∧
    ((queryTruthy query.hasClip = true ∧ event.has_clip = true ∧
        ¬(queryTruthy query.hasSnapshot = true ∧ event.has_snapshot = true)) →
      resolveEventMediaType query event = some MediaType.clip) ∧
    ((queryTruthy query.hasClip = false ∧ queryTruthy query.hasSnapshot = false ∧
        event.has_clip = false ∧ event.has_snapshot = false) →
      resolveEventMediaType query event = none) ∧
    ((queryTruthy query.hasSnapshot = true ∧ event.has_snapshot = false ∧
        ¬(queryTruthy query.hasClip = true ∧ event.has_clip = true)) →
      resolveEventMediaType query event = none) := by
  constructor
  · intro instanceID events expiry cached
    simp only [generateMediaFromEvents, Option.some_inj]
    induction events with
    | nil => rfl
    | cons e es ih =>
      by_cases he : (resolveEventMediaType query e).isSome
      · rw [List.filter_cons, if_pos he, List.filterMap_cons, List.filterMap_cons]
        cases projectEvent store query instanceID e <;> simp [ih]
      · have hre : resolveEventMediaType query e = none :=
          Option.not_isSome_iff_eq_none.mp (by simpa using he)
        have hfe : projectEvent store query instanceID e = none := by
          unfold projectEvent
          split
          · rfl
          · split
            · rfl
            · simp [hre]
        rw [List.filter_cons, if_neg (by simp [he])]
        simp only [List.filterMap_cons, hfe, ih]
  · unfold resolveEventMediaType
    generalize queryTruthy query.hasClip = qc
    generalize queryTruthy query.hasSnapshot = qs
    generalize event.has_clip = ec
    generalize event.has_snapshot = es
    revert qc qs ec es
    decide

/-- Witness for C8 at a concrete input: an event with both clip and
snapshot, queried with neither flag, resolves to clip. -/
theorem generateMediaFromEvents_type_resolution_witness :
    resolveEventMediaType { type := QueryType.Event, cameraIDs := ["cam"] }
      ⟨"front", "ev1", true, true, none⟩ = some MediaType.clip :=
  (generateMediaFromEvents_type_resolution ⟨[]⟩
    { type := QueryType.Event, cameraIDs := ["cam"] }
    ⟨"front", "ev1", true, true, none⟩).2.1 ⟨rfl, rfl, Or.inl rfl⟩

theorem seekMilliseconds_eq_overlap_sum (startTime targetTime : Int)
    (segments : List RecordingSegment) (hst : startTime ≤ targetTime)
    (hval : ∀ seg ∈ segments, seg.start_time ≤ seg.end_time ∧
      startTime ≤ fromUnixTime seg.end_time) :
    seekMilliseconds startTime targetTime segments =
      ((segments.takeWhile (fun seg =>
          decide (fromUnixTime seg.start_time ≤ targetTime))).map
        (overlapMs startTime targetTime)).sum := by
  induction segments with
  | nil => rfl
  | cons seg rest ih =>
    have hseg := hval seg (List.mem_cons_self seg rest)
    by_cases hc : fromUnixTime seg.start_time > targetTime
    · have hd : decide (fromUnixTime seg.start_time ≤ targetTime) = false := by
        simp only [decide_eq_false_iff_not, not_le]
        exact hc
      simp [seekMilliseconds, if_pos hc, List.takeWhile_cons, hd]
    · have hd : decide (fromUnixTime seg.start_time ≤ targetTime) = true := by
        simp only [decide_eq_true_eq]
        omega
      have hov : (if fromUnixTime seg.end_time > targetTime then targetTime
            else fromUnixTime seg.end_time) -
          (if fromUnixTime seg.start_time < startTime then startTime
            else fromUnixTime seg.start_time) =
          overlapMs startTime targetTime seg := by
        have h1 := hseg.1
        have h2 := hseg.2
        unfold overlapMs
        unfold fromUnixTime at *
        split <;> split <;> omega
      simp only [seekMilliseconds, if_neg hc, List.takeWhile_cons, hd, if_true,
        List.map_cons, List.sum_cons,
        ih (fun s hs => hval s (List.mem_cons_of_mem _ hs))]
      rw [hov]

/-- C4: for a target inside the media bounds, the seek-offset computation
returns (in seconds) the summed overlap with `[mediaStart, target]` of the
segments up to the first one starting after the target; the spec's
concrete scenario yields 1500 seconds; and `getMediaSeekTime` is null for
a target outside the media bounds or when no segments come back. -/
theorem seek_offset_correct :
    (∀ (startTime targetTime : Int) (segments : List RecordingSegment),
      startTime ≤ targetTime →
      (∀ seg ∈ segments, seg.start_time ≤ seg.end_time ∧
        startTime ≤ fromUnixTime seg.end_time) →
      segments ≠ [] →
      _getSeekTimeInSegments startTime targetTime segments =
        some ((((segments.takeWhile (fun seg =>
            decide (fromUnixTime seg.start_time ≤ targetTime))).map
          (overlapMs startTime targetTime)).sum : ℚ) / 1000)) ∧
    (∀ T0 : Int,
      _getSeekTimeInSegments (fromUnixTime T0) (fromUnixTime (T0 + 2300))
        [⟨T0, T0 + 600, "s1"⟩, ⟨T0 + 600, T0 + 1200, "s2"⟩,
          ⟨T0 + 2000, T0 + 2600, "s3"⟩] = some 1500) ∧
    (∀ (store : CameraStore) (segmentsCache : RecordingSegmentsCache)
        (media : ViewMediaModel) (target : Int)
        (engineOptions : Option EngineOptions)
        (fetchSegments : NativeFrigateRecordingSegmentsQuery →
          List RecordingSegment),
      (media.startTime = none ∨ media.endTime = none ∨
        (∃ s, media.startTime = some s ∧ target < s) ∨
        (∃ e, media.endTime = some e ∧ target > e)) →
      getMediaSeekTime store segmentsCache media target engineOptions
        fetchSegments = none) ∧
    (∀ (store : CameraStore) (media : ViewMediaModel) (target : Int)
        (engineOptions : Option EngineOptions) (s e : Int),
      media.startTime = some s → media.endTime = some e →
      s ≤ target → target ≤ e →
      getMediaSeekTime store ⟨[]⟩ media target engineOptions (fun _ => []) =
        none) := by
  refine ⟨?_, ?_, ?_, ?_⟩
  · intro startTime targetTime segments hst hval hne
    unfold _getSeekTimeInSegments
    rw [if_neg (by simpa using hne),
      seekMilliseconds_eq_overlap_sum startTime targetTime segments hst hval]
  · intro T0
    unfold _getSeekTimeInSegments
    rw [if_neg (by simp)]
    have hsum : seekMilliseconds (fromUnixTime T0) (fromUnixTime (T0 + 2300))
        [⟨T0, T0 + 600, "s1"⟩, ⟨T0 + 600, T0 + 1200, "s2"⟩,
          ⟨T0 + 2000, T0 + 2600, "s3"⟩] = 1500000 := by
      simp only [seekMilliseconds, fromUnixTime]
      split_ifs <;> omega
    rw [hsum]
    norm_num
  · intro store segmentsCache media target engineOptions fetchSegments hcond
    rcases hs : media.startTime with _ | s
    · simp [getMediaSeekTime, hs]
    · rcases he : media.endTime with _ | e
      · simp [getMediaSeekTime, hs, he]
      · simp only [getMediaSeekTime, hs, he]
        have : (target < s || target > e) = true := by
          rcases hcond with h | h | ⟨s', hs', hlt⟩ | ⟨e', he', hgt⟩
          · rw [hs] at h; cases h
          · rw [he] at h; cases h
          · rw [hs] at hs'
            rw [Option.some_inj] at hs'
            subst hs'
            simp only [Bool.or_eq_true, decide_eq_true_eq]
            exact Or.inl hlt
          · rw [he] at he'
            rw [Option.some_inj] at he'
            subst he'
            simp only [Bool.or_eq_true, decide_eq_true_eq]
            exact Or.inr hgt
        rw [if_pos this]
  · intro store media target engineOptions s e hs he h1 h2
    simp only [getMediaSeekTime, hs, he]
    rw [if_neg (by simp; omega)]
    rcases hcfg : _getQueryableCameraConfig store media.cameraID with _ | cfg
    · simp [getRecordingSegments, processSegmentsQuery, hcfg]
    · rcases hname : cfg.frigate.camera_name with _ | name
      · simp [getRecordingSegments, processSegmentsQuery, hcfg, hname]
      · by_cases hemp : name = ""
        · simp [getRecordingSegments, processSegmentsQuery, hcfg, hname, hemp]
        · simp [getRecordingSegments, processSegmentsQuery, hcfg, hname, hemp,
            RecordingSegmentsCache.get, _getSeekTimeInSegments, jsMapSet]

/-- Witness for C4: the concrete scenario at T0 = 0. -/
theorem seek_offset_correct_witness :
    _getSeekTimeInSegments (fromUnixTime 0) (fromUnixTime ((0 : Int) + 2300))
      [⟨(0 : Int), (0 : Int) + 600, "s1"⟩, ⟨(0 : Int) + 600, (0 : Int) + 1200, "s2"⟩,
        ⟨(0 : Int) + 2000, (0 : Int) + 2600, "s3"⟩] = some 1500 :=
  seek_offset_correct.2.1 0

/-- C7: `getRecordings` expands the day/hour summary into hour-aligned
recordings, keeps a recording exactly when its whole hour lies within the
requested bounds (an absent bound imposes no constraint — no partial-hour
inclusion), and, when a limit is requested, returns the
descending-by-start sort of the qualifying recordings truncated to the
limit. -/
theorem getRecordings_expansion_and_limit (query : DataQuery) (cameraID : String)
    (summary : List RecordingSummaryDay) :
    (∀ r, r ∈ expandSummary query cameraID summary ↔
      ∃ dayData ∈ summary, ∃ hourData ∈ dayData.hours,
        r = { cameraID := cameraID,
              startTime := startOfHour (dayData.day + hourData.hour * 3600000),
              endTime := endOfHour (dayData.day + hourData.hour * 3600000),
              events := hourData.events } ∧
        hourQualifies query r.startTime r.endTime = true) ∧
    (∀ startHour endHour : Int,
      hourQualifies query startHour endHour = true ↔
        ((∀ s, query.start = some s → s ≤ startHour) ∧
         (∀ e, query.stop = some e → endHour ≤ e))) ∧
    (∀ l : Nat, ∃ sorted, sorted.Perm (expandSummary query cameraID summary) ∧
      List.Sorted geRecStart sorted ∧
      applyRecordingLimit (some l) (expandSummary query cameraID summary) =
        sorted.take l) ∧
    (applyRecordingLimit none (expandSummary query cameraID summary) =
      expandSummary query cameraID summary) := by
  refine ⟨?_, ?_, ?_, rfl⟩
  · intro r
    simp only [expandSummary, List.mem_flatMap, List.mem_filterMap]
    constructor
    · rintro ⟨dayData, hd, hourData, hh, hr⟩
      split at hr
      · rename_i hcond
        rw [Option.some_inj] at hr
        subst hr
        exact ⟨dayData, hd, hourData, hh, rfl, hcond⟩
      · cases hr
    · rintro ⟨dayData, hd, hourData, hh, rfl, hq⟩
      exact ⟨dayData, hd, hourData, hh, by rw [if_pos hq]⟩
  · intro startHour endHour
    rcases h1 : query.start with _ | s <;> rcases h2 : query.stop with _ | e <;>
      simp [hourQualifies, h1, h2, ge_iff_le]
  · intro l
    exact ⟨List.insertionSort geRecStart (expandSummary query cameraID summary),
      List.perm_insertionSort geRecStart _,
      List.sorted_insertionSort geRecStart _, rfl⟩

/-- Witness for C7: a day summarised with 5 one-hour recordings and
limit 2 yields exactly the 2 most recent by start time, descending. -/
theorem getRecordings_expansion_and_limit_witness :
    (applyRecordingLimit (some 2)
        (expandSummary { type := QueryType.Recording, cameraIDs := ["cam"] } "cam"
          [⟨0, [⟨0, 1⟩, ⟨1, 1⟩, ⟨2, 1⟩, ⟨3, 1⟩, ⟨4, 1⟩]⟩]) =
      [{ cameraID := "cam", startTime := 14400000, endTime := 17999999, events := 1 },
       { cameraID := "cam", startTime := 10800000, endTime := 14399999,
         events := 1 }]) ∧
    (applyRecordingLimit none
        (expandSummary { type := QueryType.Recording, cameraIDs := ["cam"] } "cam"
          [⟨0, [⟨0, 1⟩, ⟨1, 1⟩, ⟨2, 1⟩, ⟨3, 1⟩, ⟨4, 1⟩]⟩]) =
      expandSummary { type := QueryType.Recording, cameraIDs := ["cam"] } "cam"
        [⟨0, [⟨0, 1⟩, ⟨1, 1⟩, ⟨2, 1⟩, ⟨3, 1⟩, ⟨4, 1⟩]⟩]) :=
  ⟨by decide,
    (getRecordings_expansion_and_limit
      { type := QueryType.Recording, cameraIDs := ["cam"] } "cam"
      [⟨0, [⟨0, 1⟩, ⟨1, 1⟩, ⟨2, 1⟩, ⟨3, 1⟩, ⟨4, 1⟩]⟩]).2.2.2⟩

/-- An entry of the recordings result map touches camera `c` during GC
reconciliation when its query's first camera is `c` and its result is a
recording result. -/
def gcTouches (c : String) (entry : DataQuery × QueryResults) : Prop :=
  entry.1.cameraIDs.head? = some c ∧
    (match entry.2 with
     | QueryResults.recording _ _ _ _ => True
     | _ => False)

theorem find?_filter_aux (pred : RecordingSegment → Bool) (cameraID : String) :
    ∀ (entries : List (String × SegmentsCacheEntry)),
    (((entries.map (fun e => if e.1 = cameraID then
        (e.1, (⟨e.2.segments.filter (fun s => !pred s), e.2.coverage⟩ :
          SegmentsCacheEntry))
      else e)).find? (fun e => decide (e.1 = cameraID))).map
        (fun e => e.2.segments)).getD [] =
      List.filter (fun s => !pred s)
        (((entries.find? (fun e => decide (e.1 = cameraID))).map
          (fun e => e.2.segments)).getD []) := by
  intro entries
  induction entries with
  | nil => rfl
  | cons e rest ih =>
    by_cases he : e.1 = cameraID
    · simp [List.find?_cons, he]
    · simp only [List.map_cons, if_neg he, List.find?_cons,
        show decide (e.1 = cameraID) = false by simp [he]]
      exact ih

theorem expireMatches_segmentsFor_self (c : RecordingSegmentsCache)
    (cameraID : String) (pred : RecordingSegment → Bool) :
    (c.expireMatches cameraID pred).segmentsFor cameraID =
      (c.segmentsFor cameraID).filter (fun s => !pred s) := by
  rcases c with ⟨entries⟩
  exact find?_filter_aux pred cameraID entries

theorem find?_other_aux (pred : RecordingSegment → Bool) (cameraID other : String)
    (hne : cameraID ≠ other) : ∀ (entries : List (String × SegmentsCacheEntry)),
    ((entries.map (fun e => if e.1 = cameraID then
        (e.1, (⟨e.2.segments.filter (fun s => !pred s), e.2.coverage⟩ :
          SegmentsCacheEntry))
      else e)).find? (fun e => decide (e.1 = other))) =
      entries.find? (fun e => decide (e.1 = other)) := by
  intro entries
  induction entries with
  | nil => rfl
  | cons e rest ih =>
    by_cases he1 : e.1 = cameraID
    · have he2 : ¬ (e.1 = other) := by rw [he1]; exact hne
      simp only [List.map_cons, if_pos he1, List.find?_cons,
        show decide (e.1 = other) = false by simp [he2]]
      exact ih
    · by_cases he2 : e.1 = other
      · have hne2 : ¬ (other = cameraID) := fun hcc => hne hcc.symm
        simp [List.find?_cons, he1, he2, hne2]
      · simp only [List.map_cons, if_neg he1, List.find?_cons,
          show decide (e.1 = other) = false by simp [he2]]
        exact ih

theorem expireMatches_segmentsFor_other (c : RecordingSegmentsCache)
    (cameraID other : String) (pred : RecordingSegment → Bool)
    (hne : cameraID ≠ other) :
    (c.expireMatches cameraID pred).segmentsFor other = c.segmentsFor other := by
  rcases c with ⟨entries⟩
  show (((entries.map _).find? _).map _).getD [] = _
  rw [find?_other_aux pred cameraID other hne entries]
  rfl

theorem gcReconcileResult_segmentsFor_other (getDate getHours : Int → Int)
    (sc : RecordingSegmentsCache) (entry : DataQuery × QueryResults) (c : String)
    (h : ¬ gcTouches c entry) :
    (gcReconcileResult getDate getHours sc entry).segmentsFor c =
      sc.segmentsFor c := by
  rcases entry with ⟨q, res⟩
  cases res with
  | recording iid recs e b =>
    simp only [gcReconcileResult]
    rcases hh : q.cameraIDs.head? with _ | camID
    · rfl
    · have hne : camID ≠ c := by
        intro hcc
        exact h ⟨by rw [hh, hcc], trivial⟩
      exact expireMatches_segmentsFor_other sc camID c _ hne
  | event iid evs e b => rfl
  | segments iid segs b => rfl
  | metadata payload e b => rfl

theorem gcReconcileResult_segmentsFor_self (getDate getHours : Int → Int)
    (sc : RecordingSegmentsCache) (q : DataQuery) (iid : String)
    (recs : List FrigateRecording) (e : Int) (b : Bool) (c : String)
    (hq : q.cameraIDs.head? = some c) :
    (gcReconcileResult getDate getHours sc
        (q, QueryResults.recording iid recs e b)).segmentsFor c =
      (sc.segmentsFor c).filter (fun s =>
        (recs.map (fun rec =>
          getHourID getDate getHours rec.cameraID rec.startTime)).contains
            (getHourID getDate getHours c (fromUnixTime s.start_time))) := by
  simp only [gcReconcileResult, hq]
  rw [expireMatches_segmentsFor_self]
  apply List.filter_congr
  intro s _
  rw [Bool.not_not]

theorem gcFold_untouched (getDate getHours : Int → Int) (c : String) :
    ∀ (rs : List (DataQuery × QueryResults)) (sc : RecordingSegmentsCache),
    (∀ p ∈ rs, ¬ gcTouches c p) →
    (rs.foldl (gcReconcileResult getDate getHours) sc).segmentsFor c =
      sc.segmentsFor c := by
  intro rs
  induction rs with
  | nil => intro sc _; rfl
  | cons p rest ih =>
    intro sc h
    rw [List.foldl_cons, ih _ (fun x hx => h x (List.mem_cons_of_mem _ hx)),
      gcReconcileResult_segmentsFor_other getDate getHours sc p c
        (h p (List.mem_cons_self p rest))]

theorem gcFold_split (getDate getHours : Int → Int) (c : String)
    (rs1 rs2 : List (DataQuery × QueryResults)) (q : DataQuery) (iid : String)
    (recs : List FrigateRecording) (e : Int) (b : Bool)
    (hq : q.cameraIDs.head? = some c)
    (h1 : ∀ p ∈ rs1, ¬ gcTouches c p) (h2 : ∀ p ∈ rs2, ¬ gcTouches c p) :
    ∀ (sc : RecordingSegmentsCache),
    ((rs1 ++ (q, QueryResults.recording iid recs e b) :: rs2).foldl
        (gcReconcileResult getDate getHours) sc).segmentsFor c =
      (sc.segmentsFor c).filter (fun s =>
        (recs.map (fun rec =>
          getHourID getDate getHours rec.cameraID rec.startTime)).contains
            (getHourID getDate getHours c (fromUnixTime s.start_time))) := by
  induction rs1 with
  | nil =>
    intro sc
    rw [List.nil_append, List.foldl_cons, gcFold_untouched getDate getHours c rs2 _ h2,
      gcReconcileResult_segmentsFor_self getDate getHours sc q iid recs e b c hq]
  | cons p rest ih =>
    intro sc
    rw [List.cons_append, List.foldl_cons,
      ih (fun x hx => h1 x (List.mem_cons_of_mem _ hx)),
      gcReconcileResult_segmentsFor_other getDate getHours sc p c
        (h1 p (List.mem_cons_self p rest))]

/-- C3: after a garbage-collection reconciliation pass, a cached segment
of camera `c` survives iff its hour identity (camera + day + hour-of-day)
appears among the hour identities of the authoritative recordings returned
for that camera; every other cached segment of that camera is evicted. -/
theorem garbageCollect_hour_reconciliation (store : CameraStore)
    (cache : RequestCache) (segmentsCache : RecordingSegmentsCache) (now : Int)
    (fetchRecordingSummary : String → String → List RecordingSummaryDay)
    (getDate getHours : Int → Int) (c : String)
    (rs1 rs2 : List (DataQuery × QueryResults)) (q : DataQuery) (iid : String)
    (recs : List FrigateRecording) (e : Int) (b : Bool)
    (hres : (getRecordings store cache
        { type := QueryType.Recording, cameraIDs := segmentsCache.getCameraIDs }
        now none fetchRecordingSummary).1 =
      some (rs1 ++ (q, QueryResults.recording iid recs e b) :: rs2))
    (hq : q.cameraIDs.head? = some c)
    (h1 : ∀ p ∈ rs1, ¬ gcTouches c p) (h2 : ∀ p ∈ rs2, ¬ gcTouches c p)
    (s : RecordingSegment) :
    s ∈ (_garbageCollectSegments store cache segmentsCache now
        fetchRecordingSummary getDate getHours).segmentsFor c ↔
      (s ∈ segmentsCache.segmentsFor c ∧
        ∃ rec ∈ recs, getHourID getDate getHours rec.cameraID rec.startTime =
          getHourID getDate getHours c (fromUnixTime s.start_time)) := by
  unfold _garbageCollectSegments
  simp only [hres]
  rw [gcFold_split getDate getHours c rs1 rs2 q iid recs e b hq h1 h2 segmentsCache]
  rw [List.mem_filter]
  constructor
  · rintro ⟨hmem, hcont⟩
    refine ⟨hmem, ?_⟩
    have := List.elem_iff.mp hcont
    simpa [List.mem_map] using this
  · rintro ⟨hmem, rec, hrec, hid⟩
    refine ⟨hmem, ?_⟩
    apply List.elem_iff.mpr
    rw [List.mem_map]
    exact ⟨rec, hrec, hid⟩

/-- Witness for C3: five cached one-hour segments (hours 1-5) for one
camera, an authoritative recording list covering hours 2-4, and a calendar
with zero-offset days/hours. -/
theorem garbageCollect_hour_reconciliation_witness :
    (⟨7200, 7210, "h2"⟩ : RecordingSegment) ∈
        (_garbageCollectSegments ⟨[("cam", ⟨⟨"i1", some "front"⟩, false⟩)]⟩ ⟨[]⟩
          ⟨[("cam", ⟨[⟨3600, 3610, "h1"⟩, ⟨7200, 7210, "h2"⟩, ⟨10800, 10810, "h3"⟩,
              ⟨14400, 14410, "h4"⟩, ⟨18000, 18010, "h5"⟩], []⟩)]⟩ 0
          (fun _ _ => [⟨0, [⟨2, 0⟩, ⟨3, 0⟩, ⟨4, 0⟩]⟩])
          (fun t => Int.fdiv t 86400000)
          (fun t => Int.emod (Int.fdiv t 3600000) 24)).segmentsFor "cam" ↔
      ((⟨7200, 7210, "h2"⟩ : RecordingSegment) ∈
        (⟨[("cam", ⟨[⟨3600, 3610, "h1"⟩, ⟨7200, 7210, "h2"⟩, ⟨10800, 10810, "h3"⟩,
            ⟨14400, 14410, "h4"⟩, ⟨18000, 18010, "h5"⟩], []⟩)]⟩ :
          RecordingSegmentsCache).segmentsFor "cam" ∧
        ∃ rec ∈ [(⟨"cam", 7200000, 10799999, 0⟩ : FrigateRecording),
            ⟨"cam", 10800000, 14399999, 0⟩, ⟨"cam", 14400000, 17999999, 0⟩],
          getHourID (fun t => Int.fdiv t 86400000)
              (fun t => Int.emod (Int.fdiv t 3600000) 24) rec.cameraID rec.startTime =
            getHourID (fun t => Int.fdiv t 86400000)
              (fun t => Int.emod (Int.fdiv t 3600000) 24) "cam" (fromUnixTime 7200)) :=
  garbageCollect_hour_reconciliation ⟨[("cam", ⟨⟨"i1", some "front"⟩, false⟩)]⟩ ⟨[]⟩
    ⟨[("cam", ⟨[⟨3600, 3610, "h1"⟩, ⟨7200, 7210, "h2"⟩, ⟨10800, 10810, "h3"⟩,
        ⟨14400, 14410, "h4"⟩, ⟨18000, 18010, "h5"⟩], []⟩)]⟩ 0
    (fun _ _ => [⟨0, [⟨2, 0⟩, ⟨3, 0⟩, ⟨4, 0⟩]⟩])
    (fun t => Int.fdiv t 86400000) (fun t => Int.emod (Int.fdiv t 3600000) 24) "cam"
    [] [] { type := QueryType.Recording, cameraIDs := ["cam"] } "i1"
    [⟨"cam", 7200000, 10799999, 0⟩, ⟨"cam", 10800000, 14399999, 0⟩,
      ⟨"cam", 14400000, 17999999, 0⟩]
    60000 false (by decide) rfl
    (fun p hp => absurd hp (List.not_mem_nil p))
    (fun p hp => absurd hp (List.not_mem_nil p))
    ⟨7200, 7210, "h2"⟩
